import Mathlib

set_option maxRecDepth 100000

/-!
Verification of the PII annotation editor (src/app/main.py) against its
specification.  Python strings are modelled as Lean `String`, Python dicts
(which preserve insertion order) as association lists, and the Streamlit
session as an explicit state record with an event-step function.
-/



/-- Boolean substring test on character lists: `listIsInfixOf n h` decides
whether `n` occurs contiguously inside `h`.  Models the Python expression
`n in h` on `str`. -/
def listIsInfixOf (n : List Char) : List Char → Bool
  | [] => n.isEmpty
  | c :: rest => n.isPrefixOf (c :: rest) || listIsInfixOf n rest

/-- Model of the Python substring operator `needle in hay` on strings. -/
def pyIn (needle hay : String) : Bool :=
  listIsInfixOf needle.data hay.data

/-- Model of Python `str.strip()`: drop whitespace from both ends. -/
def pyStrip (s : String) : String :=
  ⟨((s.data.dropWhile Char.isWhitespace).reverse.dropWhile Char.isWhitespace).reverse⟩

/-- Scanner for Python `str.replace` with a non-empty pattern: replaces the
leftmost occurrence and continues after the replaced segment.  The fuel
argument is instantiated with the length of the subject string, which bounds
the number of steps since every step consumes at least one character when
`pat` is non-empty. -/
def pyReplaceGo (pat rep : List Char) : Nat → List Char → List Char
  | 0, s => s
  | fuel + 1, s =>
    if pat.isPrefixOf s then rep ++ pyReplaceGo pat rep fuel (s.drop pat.length)
    else
      match s with
      | [] => []
      | c :: rest => c :: pyReplaceGo pat rep fuel rest

/-- Model of Python `s.replace(pat, rep)`: replaces every non-overlapping
occurrence of `pat` in `s` by `rep`, scanning left to right.  For the empty
pattern Python inserts `rep` before every character and at the end. -/
def pyReplace (s pat rep : String) : String :=
  if pat.data.isEmpty then ⟨rep.data ++ s.data.flatMap (fun c => c :: rep.data)⟩
  else ⟨pyReplaceGo pat.data rep.data s.data.length s.data⟩

/-- One PII classification: a type tag and a relevance tag, both plain
strings in the source (values of the two selectboxes). -/
structure PiiInfo where
  type : String
  relevance : String
deriving DecidableEq

/-- One record of the batch: optional id, free-text context and question, and
the ordered mapping from PII value to its classification (a Python dict,
modelled as an association list in insertion order). -/
structure Entry where
  id : Option String
  context : String
  question : String
  piis : List (String × PiiInfo)
deriving DecidableEq

/-- Model of `refresh_pii_from_context` (main.py lines 37-43): keep only the
PII entries whose key still occurs in the context text. -/
def refresh_pii_from_context (e : Entry) : Entry :=
  { e with piis := e.piis.filter fun kv => pyIn kv.1 e.context }

/-- Stable insertion for the descending-length sort used by the renderer. -/
def insertByLen (x : String × PiiInfo) :
    List (String × PiiInfo) → List (String × PiiInfo)
  | [] => [x]
  | y :: ys => if x.1.length < y.1.length then y :: insertByLen x ys else x :: y :: ys

/-- Model of Python `sorted(piis.items(), key=lambda x: -len(x[0]))`: a stable
sort of the association list by descending key length. -/
def sortByLenDesc : List (String × PiiInfo) → List (String × PiiInfo)
  | [] => []
  | x :: xs => insertByLen x (sortByLenDesc xs)

/-- Opening markup of the highlight span for a given color (main.py line 13). -/
def spanOpen (color : String) : String :=
  "<span style=\x27background-color:" ++ color ++
    "; color:white; padding:2px 4px; border-radius:4px\x27>"

/-- Full highlight markup wrapped around a PII value. -/
def spanWrap (color pii : String) : String :=
  spanOpen color ++ pii ++ "</span>"

/-- Model of `highlight_pii` (main.py lines 7-15): for each PII key in
descending length order, textually replace every occurrence of the key in the
accumulated display string by the key wrapped in a colored span; blue for
high relevance, yellow otherwise. -/
def highlight_pii (text : String) (piis : List (String × PiiInfo)) : String :=
  (sortByLenDesc piis).foldl
    (fun t kv =>
      pyReplace t kv.1
        (spanWrap (if kv.2.relevance = "high" then "#4a90e2" else "#ffa726") kv.1))
    text

/-- Context of testable property P6. -/
def ctxP6 : String := "John Smith lives in Smith"

/-- PII mapping of testable property P6, in its insertion order. -/
def piisP6 : List (String × PiiInfo) :=
  [("Smith", ⟨"name", "high"⟩), ("John Smith", ⟨"name", "high"⟩)]

/-- Transient per-field widget state of the Streamlit session: the values of
the keyed widgets `context_i`, `question_i`, `type_i_pii` and `rel_i_pii`,
each modelled as an association list (a string-keyed dict in the source). -/
structure Transient where
  contextEdits : List (Nat × String)
  questionEdits : List (Nat × String)
  typeEdits : List ((Nat × String) × String)
  relEdits : List ((Nat × String) × String)
deriving DecidableEq

/-- Empty transient state (no widget keys set). -/
def Transient.empty : Transient := ⟨[], [], [], []⟩

/-- Model of the inner loop of `save_current_edits` (main.py lines 24-31):
rebuild the PII mapping of record `idx`, replacing each type and relevance by
the transient widget value when one is present. -/
def savePiis (tr : Transient) (idx : Nat) (piis : List (String × PiiInfo)) :
    List (String × PiiInfo) :=
  piis.map fun kv =>
    (kv.1,
      ⟨(tr.typeEdits.lookup (idx, kv.1)).getD kv.2.type,
       (tr.relEdits.lookup (idx, kv.1)).getD kv.2.relevance⟩)

/-- Reconciliation of a single record: fold the transient context, question
and per-PII edits for index `idx` into the record, falling back to the stored
values when no widget value is present (main.py lines 21-32). -/
def saveEntry (tr : Transient) (idx : Nat) (e : Entry) : Entry :=
  { e with
    context := (tr.contextEdits.lookup idx).getD e.context
    question := (tr.questionEdits.lookup idx).getD e.question
    piis := savePiis tr idx e.piis }

/-- Model of `save_current_edits` (main.py lines 18-34): reconcile the record
at `idx` in the working list.  The source indexes `entries[idx]` directly and
always calls this with a valid index; an out-of-range index is modelled as
leaving the list unchanged. -/
def save_current_edits (tr : Transient) (idx : Nat) (entries : List Entry) :
    List Entry :=
  match entries[idx]? with
  | none => entries
  | some e => entries.set idx (saveEntry tr idx e)

/-- Model of the Python dict assignment `d[k] = v` on an insertion-ordered
dict: overwrite in place when the key is present, otherwise append. -/
def dictInsert (l : List (String × PiiInfo)) (k : String) (v : PiiInfo) :
    List (String × PiiInfo) :=
  if l.any (fun kv => kv.1 = k) then
    l.map fun kv => if kv.1 = k then (k, v) else kv
  else l ++ [(k, v)]

/-- Validation failures of the add-PII action (main.py lines 124-127). -/
inductive ValidationError where
  | empty
  | notInContext
deriving DecidableEq

/-- Model of the add-PII action on an already-reconciled record (main.py
lines 122-132): strip the typed value; reject it when empty or when it does
not occur in the context text; otherwise insert/overwrite the key in `piis`
and immediately prune the mapping against the context. -/
def addPii (e : Entry) (value ptype prel : String) :
    Except ValidationError Entry :=
  let v := pyStrip value
  if v = "" then .error .empty
  else if pyIn v e.context = false then .error .notInContext
  else .ok (refresh_pii_from_context
    { e with piis := dictInsert e.piis v ⟨ptype, prel⟩ })

/-- Sample record used to exercise the reconciler on concrete input. -/
def entryW : Entry := ⟨none, "aa", "q", [("b", ⟨"name", "high"⟩)]⟩

/-- Sample transient state: an edited context and an edited PII type. -/
def trW : Transient := ⟨[(0, "bb")], [], [((0, "b"), "contact")], []⟩

/-- Failure of line parsing, modelling the exception `json.loads` raises on
malformed input (which aborts the whole load in main.py line 58). -/
structure ParseError where
  msg : String
deriving DecidableEq

/-- JSON values, as returned by the external parser. -/
inductive Json where
  | null
  | bool (b : Bool)
  | num (n : Int)
  | str (s : String)
  | arr (xs : List Json)
  | obj (fields : List (String × Json))

/-- Field access on a parsed JSON object, modelling Python `d[k]` presence. -/
def Json.getField (j : Json) (k : String) : Option Json :=
  match j with
  | .obj fs => fs.lookup k
  | _ => none

/-- JSON whitespace characters. -/
def jsonWs (c : Char) : Bool :=
  c = ' ' || c = '\t' || c = '\n' || c = '\r'

/-- Decode one escape character of a JSON string literal. -/
def escChar (c : Char) : Option Char :=
  if c = '"' then some '"'
  else if c = '\\' then some '\\'
  else if c = '/' then some '/'
  else if c = 'n' then some '\n'
  else if c = 't' then some '\t'
  else if c = 'r' then some '\r'
  else if c = 'b' then some '\x08'
  else if c = 'f' then some '\x0c'
  else none

/-- Scan the body of a JSON string literal (after the opening quote), up to
and including the closing quote; returns the content and the rest. -/
def parseJStrGo : List Char → Option (List Char × List Char)
  | [] => none
  | '"' :: rest => some ([], rest)
  | '\\' :: e :: rest =>
    match escChar e with
    | none => none
    | some d =>
      match parseJStrGo rest with
      | none => none
      | some (s, r) => some (d :: s, r)
  | '\\' :: [] => none
  | c :: rest =>
    match parseJStrGo rest with
    | none => none
    | some (s, r) => some (c :: s, r)

/-- Drop leading JSON whitespace. -/
def skipWsL (s : List Char) : List Char :=
  s.dropWhile jsonWs

/-- Scan a run of decimal digits into a natural number. -/
def parseDigits : Nat → List Char → Option (Nat × List Char)
  | acc, c :: rest =>
    if c.isDigit then parseDigits (acc * 10 + (c.toNat - 48)) rest
    else some (acc, c :: rest)
  | _, [] => none

mutual

/-- Modelled from the spec: the external `json.loads` collaborator (file
parsing is out of scope per the specification, which treats input parsing as
an interface); recursive-descent parser for one JSON value, faithful to JSON
on the subset used by the input format: strings with simple escapes, integer
numbers, booleans, null, arrays and objects.  The fuel bounds nesting and is
instantiated with the input length, which suffices since every descent first
consumes at least one character. -/
def parseValue : Nat → List Char → Option (Json × List Char)
  | 0, _ => none
  | fuel + 1, s =>
    match skipWsL s with
    | [] => none
    | '"' :: rest =>
      match parseJStrGo rest with
      | none => none
      | some (cs, r) => some (.str ⟨cs⟩, r)
    | '\x7b' :: rest => parseObjFields fuel (skipWsL rest) true
    | '[' :: rest => parseArrItems fuel (skipWsL rest) true
    | 't' :: rest =>
      if ['r', 'u', 'e'].isPrefixOf rest then some (.bool true, rest.drop 3)
      else none
    | 'f' :: rest =>
      if ['a', 'l', 's', 'e'].isPrefixOf rest then some (.bool false, rest.drop 4)
      else none
    | 'n' :: rest =>
      if ['u', 'l', 'l'].isPrefixOf rest then some (.null, rest.drop 3)
      else none
    | '-' :: rest =>
      match rest with
      | c :: _ =>
        if c.isDigit then
          match parseDigits 0 rest with
          | none => none
          | some (n, r) => some (.num (-(n : Int)), r)
        else none
      | [] => none
    | c :: rest =>
      if c.isDigit then
        match parseDigits 0 (c :: rest) with
        | none => none
        | some (n, r) => some (.num (n : Int), r)
      else none

/-- Parse the fields of a JSON object after the opening brace; `first` is
true when no field has been consumed yet (so a closing brace is allowed). -/
def parseObjFields : Nat → List Char → Bool → Option (Json × List Char)
  | _, '\x7d' :: rest, true => some (.obj [], rest)
  | 0, _, _ => none
  | fuel + 1, s, _ =>
    match s with
    | '"' :: rest =>
      match parseJStrGo rest with
      | none => none
      | some (k, r1) =>
        match skipWsL r1 with
        | ':' :: r2 =>
          match parseValue fuel r2 with
          | none => none
          | some (v, r3) =>
            match skipWsL r3 with
            | ',' :: r4 =>
              match parseObjFields fuel (skipWsL r4) false with
              | some (.obj fs, r5) => some (.obj ((⟨k⟩, v) :: fs), r5)
              | _ => none
            | '\x7d' :: r4 => some (.obj [(⟨k⟩, v)], r4)
            | _ => none
        | _ => none
    | _ => none

/-- Parse the items of a JSON array after the opening bracket. -/
def parseArrItems : Nat → List Char → Bool → Option (Json × List Char)
  | _, ']' :: rest, true => some (.arr [], rest)
  | 0, _, _ => none
  | fuel + 1, s, _ =>
    match parseValue fuel s with
    | none => none
    | some (v, r1) =>
      match skipWsL r1 with
      | ',' :: r2 =>
        match parseArrItems fuel (skipWsL r2) false with
        | some (.arr xs, r3) => some (.arr (v :: xs), r3)
        | _ => none
      | ']' :: r2 => some (.arr [v], r2)
      | _ => none

end

/-- Modelled from the spec: `json.loads` on one input line — parse exactly
one JSON value, allowing surrounding whitespace and rejecting trailing data,
and fail on any malformed line. -/
def json_loads (line : String) : Except ParseError Json :=
  match parseValue (line.length + 1) line.data with
  | none => .error ⟨"invalid json"⟩
  | some (j, rest) =>
    if (skipWsL rest).isEmpty then .ok j else .error ⟨"extra data"⟩

/-- Model of the load block (main.py lines 56-61): parse every line with
`json.loads`; the first exception aborts the whole comprehension, so either
every line parses and the full batch is produced, or nothing is. -/
def load : List String → Except ParseError (List Json)
  | [] => .ok []
  | l :: rest =>
    match json_loads l with
    | .error e => .error e
    | .ok j =>
      match load rest with
      | .error e => .error e
      | .ok js => .ok (j :: js)

/-- Model of the Python dict assignment `d[k] = v` on a generic dict: update
in place when present, else append. -/
def dictSet [BEq α] (k : α) (v : β) : List (α × β) → List (α × β)
  | [] => [(k, v)]
  | kv :: rest => if kv.1 == k then (k, v) :: rest else kv :: dictSet k v rest

/-- Model of `if key not in st.session_state: st.session_state[key] = v`. -/
def insertIfAbsent [BEq α] (k : α) (v : β) (l : List (α × β)) : List (α × β) :=
  match l.lookup k with
  | some _ => l
  | none => l ++ [(k, v)]

/-- Initialisation of the context widget key (main.py lines 102-104). -/
def initContextKey (tr : Transient) (idx : Nat) (e : Entry) : Transient :=
  { tr with contextEdits := insertIfAbsent idx e.context tr.contextEdits }

/-- Initialisation of the question widget key (main.py lines 155-157). -/
def initQuestionKey (tr : Transient) (idx : Nat) (e : Entry) : Transient :=
  { tr with questionEdits := insertIfAbsent idx e.question tr.questionEdits }

/-- Initialisation of the per-PII type and relevance widget keys (main.py
lines 164-170), iterating over the PII mapping in order. -/
def initPiiKeys (tr : Transient) (idx : Nat)
    (piis : List (String × PiiInfo)) : Transient :=
  { tr with
    typeEdits :=
      piis.foldl (fun acc kv => insertIfAbsent (idx, kv.1) kv.2.type acc)
        tr.typeEdits
    relEdits :=
      piis.foldl (fun acc kv => insertIfAbsent (idx, kv.1) kv.2.relevance acc)
        tr.relEdits }

/-- All widget-key initialisations of one full render pass, in script order. -/
def initKeys (tr : Transient) (idx : Nat) (e : Entry) : Transient :=
  initPiiKeys (initQuestionKey (initContextKey tr idx e) idx e) idx e.piis

/-- The whole Streamlit session state: the working list, the pristine list
and the active index (each absent before the first successful load), plus the
transient widget values.  The active index is only ever read when a working
list is present; the source always assigns it together with the lists. -/
structure AppState where
  entries : Option (List Entry)
  original_entries : Option (List Entry)
  current_idx : Nat
  tr : Transient
deriving DecidableEq

/-- Session state before any file is uploaded. -/
def initState : AppState := ⟨none, none, 0, Transient.empty⟩

/-- Completion of a render pass on a state with no pending handler: the
widget keys of the active record are initialised if absent (main.py lines
102-104, 155-157, 164-170) and the download-button data expression then
reconciles the active record into the working list (main.py line 196), which
happens on every completed pass.  When the active index is out of range the
source raises IndexError at line 66 before any mutation, leaving the session
state unchanged. -/
def renderTail (s : AppState) : AppState :=
  match s.entries with
  | none => s
  | some es =>
    match es[s.current_idx]? with
    | none => s
    | some e =>
      let tr1 := initKeys s.tr s.current_idx e
      { s with
        tr := tr1
        entries := some (save_current_edits tr1 s.current_idx es) }

/-- User-triggered events of one editing session.  Widget-change events carry
the new widget value; the add-PII click carries the values of the three add
widgets.  `upload` is a successful file load (a batch parsed from the file);
`uploadBad` is an upload whose parsing raises, which aborts the script run
before any session-state assignment. -/
inductive Ev where
  | upload (batch : List Entry)
  | uploadBad
  | editContext (v : String)
  | editQuestion (v : String)
  | editType (pii v : String)
  | editRel (pii v : String)
  | clickPrev
  | clickNext
  | clickGo (g : Nat)
  | clickAdd (value ptype prel : String)
  | clickUpdate
  | clickSave
  | clickDownload
  | clickLoadOriginal
deriving DecidableEq

/-- One event of the Streamlit event loop: the script pass in which the event
fires (handlers in source order, with the widget-key initialisations that
precede them) followed by the completed render pass that every event ends
with (a plain completion when the handler does not rerun, or the rerun pass
otherwise).  Buttons disabled in the source (previous at index 0, next at the
last index) cannot fire and are identities. -/
def step (ev : Ev) (s : AppState) : AppState :=
  match s.entries with
  | none =>
    match ev with
    | .upload batch =>
      renderTail { s with
        entries := some batch
        original_entries := some batch
        current_idx := 0 }
    | _ => s
  | some es =>
    match es[s.current_idx]? with
    | none => s
    | some e =>
      match ev with
      | .upload _ => renderTail s
      | .uploadBad => renderTail s
      | .editContext v =>
        renderTail { s with tr :=
          { s.tr with contextEdits := dictSet s.current_idx v s.tr.contextEdits } }
      | .editQuestion v =>
        renderTail { s with tr :=
          { s.tr with questionEdits := dictSet s.current_idx v s.tr.questionEdits } }
      | .editType pii v =>
        renderTail { s with tr :=
          { s.tr with typeEdits := dictSet (s.current_idx, pii) v s.tr.typeEdits } }
      | .editRel pii v =>
        renderTail { s with tr :=
          { s.tr with relEdits := dictSet (s.current_idx, pii) v s.tr.relEdits } }
      | .clickPrev =>
        if s.current_idx = 0 then s
        else
          renderTail { s with
            entries := some (save_current_edits s.tr s.current_idx es)
            current_idx := s.current_idx - 1 }
      | .clickNext =>
        if s.current_idx = es.length - 1 then s
        else
          renderTail { s with
            entries := some (save_current_edits s.tr s.current_idx es)
            current_idx := min (es.length - 1) (s.current_idx + 1) }
      | .clickGo g =>
        renderTail { s with
          entries := some (save_current_edits s.tr s.current_idx es)
          current_idx := min (max g 1) es.length - 1 }
      | .clickAdd value ptype prel =>
        let tr0 := initContextKey s.tr s.current_idx e
        let es1 := save_current_edits tr0 s.current_idx es
        match es1[s.current_idx]? with
        | none => s
        | some e1 =>
          match addPii e1 value ptype prel with
          | .error _ =>
            let tr1 :=
              initPiiKeys (initQuestionKey tr0 s.current_idx e1)
                s.current_idx e1.piis
            { s with
              tr := tr1
              entries := some (save_current_edits tr1 s.current_idx es1) }
          | .ok e2 =>
            renderTail { s with
              tr := tr0
              entries := some (es1.set s.current_idx e2) }
      | .clickUpdate =>
        let tr0 := initContextKey s.tr s.current_idx e
        let es1 := save_current_edits tr0 s.current_idx es
        match es1[s.current_idx]? with
        | none => s
        | some e1 =>
          renderTail { s with
            tr := tr0
            entries := some (es1.set s.current_idx (refresh_pii_from_context e1)) }
      | .clickSave =>
        let tr1 := initKeys s.tr s.current_idx e
        let es1 := save_current_edits tr1 s.current_idx es
        { s with
          tr := tr1
          entries := some (save_current_edits tr1 s.current_idx es1) }
      | .clickDownload => renderTail s
      | .clickLoadOriginal =>
        match s.original_entries with
        | some orig =>
          renderTail
            { entries := some orig
              original_entries := some orig
              current_idx := 0
              tr := Transient.empty }
        | none =>
          let tr1 := initKeys s.tr s.current_idx e
          { s with
            tr := tr1
            entries := some (save_current_edits tr1 s.current_idx es) }

/-- States reachable by the event loop from the pre-upload state. -/
inductive Reachable : AppState → Prop where
  | init : Reachable initState
  | next (ev : Ev) (s : AppState) : Reachable s → Reachable (step ev s)

/-- Sample record used in concrete scenarios. -/
def entryA : Entry := ⟨none, "a", "qa", []⟩

/-- Second sample record used in concrete scenarios. -/
def entryB : Entry := ⟨none, "c", "qc", []⟩

/-- Session state after uploading a one-record batch. -/
def stateA : AppState := step (.upload [entryA]) initState

/-- Session state after uploading a two-record batch. -/
def stateAB : AppState := step (.upload [entryA, entryB]) initState

/-- The Boolean substring test agrees with the mathematical infix relation. -/
theorem listIsInfixOf_iff (n : List Char) (l : List Char) :
    listIsInfixOf n l = true ↔ n <:+: l := by
  induction l with
  | nil =>
    simp [listIsInfixOf, List.isEmpty_iff]
  | cons c rest ih =>
    simp [listIsInfixOf, List.infix_cons_iff, List.isPrefixOf_iff_prefix, ih]

/-- Claim C2: `refresh_pii_from_context` removes exactly those `piis` entries
whose key is not a literal substring of the context, keeps every other entry
(key, type and relevance) unchanged, and leaves `context`, `question` (and
`id`) unchanged. -/
theorem C2_refresh_prunes_exactly (e : Entry) :
    (∀ kv : String × PiiInfo,
        kv ∈ (refresh_pii_from_context e).piis ↔
          kv ∈ e.piis ∧ kv.1.data <:+: e.context.data) ∧
      (refresh_pii_from_context e).context = e.context ∧
      (refresh_pii_from_context e).question = e.question ∧
      (refresh_pii_from_context e).id = e.id := by
  refine ⟨fun kv => ?_, rfl, rfl, rfl⟩
  simp [refresh_pii_from_context, List.mem_filter, pyIn, listIsInfixOf_iff]

/-- Claim C6: pruning is idempotent; applying `refresh_pii_from_context`
twice gives the same record as applying it once. -/
theorem C6_refresh_idempotent (e : Entry) :
    refresh_pii_from_context (refresh_pii_from_context e) =
      refresh_pii_from_context e := by
  simp only [refresh_pii_from_context]
  congr 1
  rw [List.filter_filter]
  simp

/-- Claim C3 counterexample: on the P6 input the rendered output does NOT
contain the span wrapping the full key "John Smith" intact; the shorter key
"Smith" is re-wrapped inside the longer key span content, contradicting the
claim that the longer span is left intact and not split by an inner wrap. -/
theorem C3_cex :
    pyIn (spanWrap "#4a90e2" "John Smith") (highlight_pii ctxP6 piisP6) = false := by
  decide

/-- Claim C3 amended: keys are applied longest-first, so the longer key
"John Smith" is matched and wrapped before the shorter key is processed, but
the shorter key "Smith" is then additionally wrapped inside the longer span
content (nested markup) as well as at its standalone trailing occurrence. -/
theorem C3_amended_nested_wrap :
    highlight_pii ctxP6 piisP6 =
      spanOpen "#4a90e2" ++ "John " ++ spanWrap "#4a90e2" "Smith" ++
        "</span> lives in " ++ spanWrap "#4a90e2" "Smith" := by
  decide

/-- The key just inserted by `dictInsert` is present in the result. -/
theorem mem_dictInsert (l : List (String × PiiInfo)) (k : String) (v : PiiInfo) :
    (k, v) ∈ dictInsert l k v := by
  unfold dictInsert
  by_cases h : l.any (fun kv => kv.1 = k) = true
  · simp only [h, if_pos]
    rcases List.any_eq_true.mp h with ⟨kv, hmem, hk⟩
    refine List.mem_map.mpr ⟨kv, hmem, ?_⟩
    simp only [decide_eq_true_eq] at hk
    simp [hk]
  · simp [h]

/-- Claim C5: `save_current_edits` replaces the context and the question of
the active record by the transient edited values (falling back to the stored
value when no edit is present), replaces each PII annotation by its edited
type and relevance verbatim, never prunes (the list of PII keys is unchanged,
whatever the new context is), leaves the id unchanged, and leaves every other
record of the working list unchanged. -/
theorem C5_save_reconciles (tr : Transient) (idx : Nat) (entries : List Entry)
    (e : Entry) (he : entries[idx]? = some e) :
    ∃ e2, (save_current_edits tr idx entries)[idx]? = some e2 ∧
      e2.context = (tr.contextEdits.lookup idx).getD e.context ∧
      e2.question = (tr.questionEdits.lookup idx).getD e.question ∧
      e2.piis.map Prod.fst = e.piis.map Prod.fst ∧
      (∀ kv ∈ e.piis,
        (kv.1,
          (⟨(tr.typeEdits.lookup (idx, kv.1)).getD kv.2.type,
            (tr.relEdits.lookup (idx, kv.1)).getD kv.2.relevance⟩ : PiiInfo))
          ∈ e2.piis) ∧
      e2.id = e.id ∧
      ∀ j, j ≠ idx → (save_current_edits tr idx entries)[j]? = entries[j]? := by
  have hidx : idx < entries.length := by
    by_contra hlt
    rw [List.getElem?_eq_none (Nat.le_of_not_lt hlt)] at he
    exact Option.noConfusion he
  refine ⟨saveEntry tr idx e, ?_, rfl, rfl, ?_, ?_, rfl, ?_⟩
  · simp [save_current_edits, he, List.getElem?_set_self, hidx]
  · simp [saveEntry, savePiis]
  · intro kv hkv
    simp only [saveEntry, savePiis]
    exact List.mem_map.mpr ⟨kv, hkv, rfl⟩
  · intro j hj
    simp [save_current_edits, he, List.getElem?_set_ne (fun h => hj h.symm)]

/-- Witness for claim C5 at a concrete record list and transient state. -/
theorem C5_save_reconciles_witness :
    ∃ e2, (save_current_edits trW 0 [entryW])[0]? = some e2 ∧
      e2.context = "bb" ∧ e2.question = "q" ∧
      e2.piis.map Prod.fst = ["b"] := by
  obtain ⟨e2, h1, h2, h3, h4, -⟩ := C5_save_reconciles trW 0 [entryW] entryW rfl
  refine ⟨e2, h1, ?_, ?_, ?_⟩
  · rw [h2]; rfl
  · rw [h3]; rfl
  · rw [h4]; rfl

/-- Claim C1: the add-PII action fails with the empty-value error when the
typed value strips to the empty string; fails with the not-in-context error
when the stripped value does not occur in the context; and otherwise succeeds,
inserting/overwriting the key and immediately pruning against the context, so
the returned record contains the added key.  The source strips the value
before both checks and uses the stripped value as the key. -/
theorem C1_addPii_spec (e : Entry) (value ptype prel : String) :
    (pyStrip value = "" → addPii e value ptype prel = .error .empty) ∧
      (pyStrip value ≠ "" → pyIn (pyStrip value) e.context = false →
        addPii e value ptype prel = .error .notInContext) ∧
      (pyStrip value ≠ "" → pyIn (pyStrip value) e.context = true →
        ∃ e2, addPii e value ptype prel = .ok e2 ∧
          e2 = refresh_pii_from_context
            { e with piis := dictInsert e.piis (pyStrip value) ⟨ptype, prel⟩ } ∧
          pyStrip value ∈ e2.piis.map Prod.fst) := by
  refine ⟨fun h => ?_, fun h hn => ?_, fun h hy => ?_⟩
  · simp [addPii, h]
  · simp [addPii, h, hn]
  · refine ⟨_, ?_, rfl, ?_⟩
    · simp [addPii, h, hy]
    · refine List.mem_map.mpr ⟨(pyStrip value, ⟨ptype, prel⟩), ?_, rfl⟩
      simp only [refresh_pii_from_context, List.mem_filter]
      exact ⟨mem_dictInsert _ _ _, by simpa using hy⟩

/-- Witness for claim C1, exercising all three branches on concrete input. -/
theorem C1_addPii_spec_witness :
    ((pyStrip " " = "" →
        addPii ⟨none, "John lives here", "q", []⟩ " " "name" "high" =
          .error .empty) ∧
      (pyStrip " " ≠ "" → pyIn (pyStrip " ")
          (("John lives here" : String)) = false →
        addPii ⟨none, "John lives here", "q", []⟩ " " "name" "high" =
          .error .notInContext) ∧
      (pyStrip " " ≠ "" → pyIn (pyStrip " ")
          (("John lives here" : String)) = true →
        ∃ e2, addPii ⟨none, "John lives here", "q", []⟩ " " "name" "high" =
            .ok e2 ∧
          e2 = refresh_pii_from_context
            { (⟨none, "John lives here", "q", []⟩ : Entry) with
              piis := dictInsert [] (pyStrip " ") ⟨"name", "high"⟩ } ∧
          pyStrip " " ∈ e2.piis.map Prod.fst)) ∧
    (pyStrip " John " ≠ "" ∧ pyIn (pyStrip " John ")
        (("John lives here" : String)) = true ∧
      ∃ e2, addPii ⟨none, "John lives here", "q", []⟩ " John " "name" "high" =
          .ok e2 ∧ pyStrip " John " ∈ e2.piis.map Prod.fst) := by
  constructor
  · exact C1_addPii_spec ⟨none, "John lives here", "q", []⟩ " " "name" "high"
  · refine ⟨by decide, by decide, ?_⟩
    rcases (C1_addPii_spec ⟨none, "John lives here", "q", []⟩ " John "
        "name" "high").2.2 (by decide) (by decide) with ⟨e2, h1, _, h3⟩
    exact ⟨e2, h1, h3⟩

/-- Claim C9 counterexample: the line consisting of an empty JSON object is
well-formed record syntax for `json.loads`, so the batch loads successfully
even though the record is missing all three required fields `context`,
`question` and `piis` — the load block performs no field validation. -/
theorem C9_cex :
    load ["\x7b\x7d"] = .ok [Json.obj []] ∧
      (Json.obj []).getField "context" = none ∧
      (Json.obj []).getField "question" = none ∧
      (Json.obj []).getField "piis" = none :=
  ⟨rfl, rfl, rfl, rfl⟩

/-- Claim C9 amended: `load` parses each line with `json.loads` and succeeds
exactly when every line is well-formed JSON (required fields are not
validated at load time); on success the result is the per-line parses in
order, and on any per-line failure the whole batch aborts — the result type
admits no partial list. -/
theorem C9_amended_load (lines : List String) :
    ((∃ js, load lines = .ok js) ↔ ∀ l ∈ lines, ∃ j, json_loads l = .ok j) ∧
      ∀ js, load lines = .ok js →
        List.Forall₂ (fun l j => json_loads l = .ok j) lines js := by
  induction lines with
  | nil =>
    refine ⟨by simp [load], ?_⟩
    intro js h
    simp only [load, Except.ok.injEq] at h
    subst h
    exact .nil
  | cons l rest ih =>
    constructor
    · constructor
      · rintro ⟨js, h⟩ m hm
        cases hj : json_loads l with
        | error e => simp [load, hj] at h
        | ok j =>
          cases hr : load rest with
          | error e => simp [load, hj, hr] at h
          | ok js2 =>
            rcases List.mem_cons.mp hm with rfl | hm2
            · exact ⟨j, hj⟩
            · exact ih.1.mp ⟨js2, hr⟩ m hm2
      · intro hall
        obtain ⟨j, hj⟩ := hall l (List.mem_cons_self _ _)
        obtain ⟨js, hjs⟩ :=
          ih.1.mpr fun m hm => hall m (List.mem_cons_of_mem _ hm)
        exact ⟨j :: js, by simp [load, hj, hjs]⟩
    · intro js h
      cases hj : json_loads l with
      | error e => simp [load, hj] at h
      | ok j =>
        cases hr : load rest with
        | error e => simp [load, hj, hr] at h
        | ok js2 =>
          simp only [load, hj, hr, Except.ok.injEq] at h
          subst h
          exact .cons hj (ih.2 js2 hr)

/-- Witness for claim C9 as amended: a batch whose second line is malformed
does not load, by the characterisation theorem applied at concrete input. -/
theorem C9_amended_load_witness :
    ¬ ∃ js, load ["\x7b\x7d", "nope"] = .ok js := by
  intro hex
  obtain ⟨j, hj⟩ :=
    (C9_amended_load ["\x7b\x7d", "nope"]).1.mp hex "nope" (by simp)
  rw [show json_loads "nope" = .error ⟨"invalid json"⟩ from rfl] at hj
  exact Except.noConfusion hj

/-- A completed render pass never touches the pristine list. -/
theorem renderTail_original (s : AppState) :
    (renderTail s).original_entries = s.original_entries := by
  unfold renderTail
  split
  · rfl
  · split
    · rfl
    · rfl

/-- A completed render pass keeps the working list present iff it was. -/
theorem renderTail_isSome (s : AppState) :
    (renderTail s).entries.isSome = s.entries.isSome := by
  unfold renderTail
  split
  · rfl
  · rename_i es hes
    split
    · rfl
    · simp [hes]

/-- Every event preserves the working-implies-pristine invariant. -/
theorem step_inv (ev : Ev) (s : AppState)
    (h : s.entries.isSome = true → s.original_entries.isSome = true) :
    (step ev s).entries.isSome = true →
      (step ev s).original_entries.isSome = true := by
  unfold step
  cases hes : s.entries with
  | none =>
    cases ev
    case upload batch =>
      dsimp only
      intro _
      rw [renderTail_original]
      rfl
    all_goals exact h
  | some es =>
    dsimp only
    cases he2 : es[s.current_idx]? with
    | none => exact h
    | some e =>
      dsimp only
      have hs : s.entries.isSome = true := by rw [hes]; rfl
      have horig := h hs
      cases ev with
      | upload batch =>
        dsimp only
        intro _
        rw [renderTail_original]
        exact horig
      | uploadBad =>
        dsimp only
        intro _
        rw [renderTail_original]
        exact horig
      | editContext v =>
        dsimp only
        intro _
        rw [renderTail_original]
        exact horig
      | editQuestion v =>
        dsimp only
        intro _
        rw [renderTail_original]
        exact horig
      | editType p v =>
        dsimp only
        intro _
        rw [renderTail_original]
        exact horig
      | editRel p v =>
        dsimp only
        intro _
        rw [renderTail_original]
        exact horig
      | clickPrev =>
        dsimp only
        split
        · exact fun _ => horig
        · intro _
          rw [renderTail_original]
          exact horig
      | clickNext =>
        dsimp only
        split
        · exact fun _ => horig
        · intro _
          rw [renderTail_original]
          exact horig
      | clickGo g =>
        dsimp only
        intro _
        rw [renderTail_original]
        exact horig
      | clickAdd v t r =>
        dsimp only
        split
        · exact fun _ => horig
        · split
          · exact fun _ => horig
          · intro _
            rw [renderTail_original]
            exact horig
      | clickUpdate =>
        dsimp only
        split
        · exact fun _ => horig
        · intro _
          rw [renderTail_original]
          exact horig
      | clickSave => exact fun _ => horig
      | clickDownload =>
        dsimp only
        intro _
        rw [renderTail_original]
        exact horig
      | clickLoadOriginal =>
        dsimp only
        cases ho : s.original_entries with
        | some orig =>
          dsimp only
          intro _
          rw [renderTail_original]
          rfl
        | none =>
          rw [ho] at horig
          exact absurd horig (by simp)

/-- Claim C10: in every reachable session state, a present working record
list implies a present pristine original list — the two are only ever set
together (at first load and by the Load Original handler), so the
missing-original-data warning branch of the Load Original handler (which
requires a rendered working list with no pristine list) cannot run in a live
session. -/
theorem C10_working_implies_pristine (s : AppState) (h : Reachable s) :
    s.entries.isSome = true → s.original_entries.isSome = true := by
  induction h with
  | init => intro hx; exact absurd hx (by simp [initState])
  | next ev s0 hr ih => exact step_inv ev s0 ih

/-- Witness for claim C10 at a state reached by one successful upload. -/
theorem C10_working_implies_pristine_witness :
    stateAB.original_entries.isSome = true :=
  C10_working_implies_pristine stateAB
    (Reachable.next (.upload [entryA, entryB]) initState Reachable.init)
    (by decide)

/-- The initialisation pass leaves the context widget list as an
insert-if-absent. -/
theorem initKeys_contextEdits (tr : Transient) (idx : Nat) (e : Entry) :
    (initKeys tr idx e).contextEdits =
      insertIfAbsent idx e.context tr.contextEdits := rfl

/-- Claim C4: when the add-PII action fails validation (stripped value empty,
or stripped value not a substring of the active context), the handler shows a
message and leaves all state unchanged: starting from any completed-render
state (every state the user can click from is one, because each event ends
with a completed render pass), the event is an identity — same working list,
same active record context, question and PII mapping, same active index and
same widget state.  The reconciliation the handler performs before validating
has already happened during the preceding render pass, so it changes
nothing. -/
theorem C4_failed_add_state_unchanged (s : AppState) (es : List Entry)
    (e : Entry) (v t rel : String)
    (hr : renderTail s = s)
    (hes : s.entries = some es)
    (he : es[s.current_idx]? = some e)
    (hfail : pyStrip v = "" ∨ pyIn (pyStrip v) e.context = false) :
    step (.clickAdd v t rel) s = s := by
  have hrt := hr
  unfold renderTail at hrt
  rw [hes] at hrt
  dsimp only at hrt
  rw [he] at hrt
  dsimp only at hrt
  have htr := congrArg AppState.tr hrt
  dsimp only at htr
  have hent := congrArg AppState.entries hrt
  dsimp only at hent
  rw [hes] at hent
  have hsv : save_current_edits (initKeys s.tr s.current_idx e)
      s.current_idx es = es := Option.some.inj hent
  have hsv2 : save_current_edits s.tr s.current_idx es = es := by
    rw [htr] at hsv
    exact hsv
  have hcl := congrArg Transient.contextEdits htr
  rw [initKeys_contextEdits] at hcl
  have hctx : initContextKey s.tr s.current_idx e = s.tr := by
    unfold initContextKey
    rw [hcl]
  have hinitPQ : initKeys s.tr s.current_idx e =
      initPiiKeys (initQuestionKey s.tr s.current_idx e)
        s.current_idx e.piis := by
    unfold initKeys
    rw [hctx]
  have hfail2 : ∃ err, addPii e v t rel = .error err := by
    rcases hfail with hempt | hnotin
    · exact ⟨.empty, by simp [addPii, hempt]⟩
    · by_cases hz : pyStrip v = ""
      · exact ⟨.empty, by simp [addPii, hz]⟩
      · exact ⟨.notInContext, by simp [addPii, hz, hnotin]⟩
  obtain ⟨err, herr⟩ := hfail2
  unfold step
  rw [hes]
  dsimp only
  rw [he]
  dsimp only
  rw [hctx, hsv2, he]
  dsimp only
  rw [herr]
  dsimp only
  rw [← hinitPQ, htr, hsv2, ← hes]

/-- Witness for claim C4: adding a whitespace-only value on a freshly
uploaded two-record batch changes nothing. -/
theorem C4_failed_add_state_unchanged_witness :
    step (.clickAdd " " "name" "high") stateAB = stateAB :=
  C4_failed_add_state_unchanged stateAB [entryA, entryB] entryA " " "name"
    "high" (by decide) (by decide) (by decide) (Or.inl (by decide))

/-- Claim C7: navigation reconciles before moving and never loses in-progress
edits.  The previous button is a no-op at index 0 and the next button at the
last index (both are disabled in the source); otherwise the click folds the
transient edits of the active record into the working list and moves the
index by one, the reconciled record remaining at its position.  Consequently,
editing record 0, moving next and moving back yields record 0 with the edited
context, stated concretely on the two-record sample session. -/
theorem C7_navigation :
    (∀ (s : AppState) (es : List Entry) (e : Entry),
        s.entries = some es → es[s.current_idx]? = some e →
        s.current_idx = 0 → step .clickPrev s = s) ∧
      (∀ (s : AppState) (es : List Entry) (e : Entry),
        s.entries = some es → es[s.current_idx]? = some e →
        s.current_idx = es.length - 1 → step .clickNext s = s) ∧
      (∀ (s : AppState) (es : List Entry) (e : Entry),
        s.entries = some es → es[s.current_idx]? = some e →
        s.current_idx ≠ es.length - 1 →
        (step .clickNext s).current_idx = s.current_idx + 1 ∧
          ∃ es2, (step .clickNext s).entries = some es2 ∧
            es2[s.current_idx]? = some (saveEntry s.tr s.current_idx e)) ∧
      (∀ (s : AppState) (es : List Entry) (e : Entry),
        s.entries = some es → es[s.current_idx]? = some e →
        s.current_idx ≠ 0 →
        (step .clickPrev s).current_idx = s.current_idx - 1 ∧
          ∃ es2, (step .clickPrev s).entries = some es2 ∧
            es2[s.current_idx]? = some (saveEntry s.tr s.current_idx e)) ∧
      ((step .clickPrev (step .clickNext
          (step (.editContext "b") stateAB))).entries.getD [])[0]? =
        some ⟨none, "b", "qa", []⟩ := by
  refine ⟨?_, ?_, ?_, ?_, by decide⟩
  · intro s es e hes he h0
    unfold step
    rw [hes]
    dsimp only
    rw [he]
    dsimp only
    rw [if_pos h0]
  · intro s es e hes he hlast
    unfold step
    rw [hes]
    dsimp only
    rw [he]
    dsimp only
    rw [if_pos hlast]
  · intro s es e hes he hne
    have hidx : s.current_idx < es.length := by
      by_contra hlt
      rw [List.getElem?_eq_none (Nat.le_of_not_lt hlt)] at he
      exact Option.noConfusion he
    have hmin : min (es.length - 1) (s.current_idx + 1) = s.current_idx + 1 :=
      Nat.min_eq_right (by omega)
    have hes1 : save_current_edits s.tr s.current_idx es =
        es.set s.current_idx (saveEntry s.tr s.current_idx e) := by
      unfold save_current_edits
      rw [he]
    have hidx1 :
        s.current_idx + 1 <
          (es.set s.current_idx (saveEntry s.tr s.current_idx e)).length := by
      rw [List.length_set]
      omega
    unfold step
    rw [hes]
    dsimp only
    rw [he]
    dsimp only
    rw [if_neg hne, hmin, hes1]
    unfold renderTail
    dsimp only
    rw [List.getElem?_eq_getElem hidx1]
    dsimp only
    refine ⟨rfl, _, rfl, ?_⟩
    unfold save_current_edits
    rw [List.getElem?_eq_getElem hidx1]
    rw [List.getElem?_set_ne (by omega), List.getElem?_set_self hidx]
  · intro s es e hes he hne
    have hidx : s.current_idx < es.length := by
      by_contra hlt
      rw [List.getElem?_eq_none (Nat.le_of_not_lt hlt)] at he
      exact Option.noConfusion he
    have hes1 : save_current_edits s.tr s.current_idx es =
        es.set s.current_idx (saveEntry s.tr s.current_idx e) := by
      unfold save_current_edits
      rw [he]
    have hidx1 :
        s.current_idx - 1 <
          (es.set s.current_idx (saveEntry s.tr s.current_idx e)).length := by
      rw [List.length_set]
      omega
    unfold step
    rw [hes]
    dsimp only
    rw [he]
    dsimp only
    rw [if_neg hne, hes1]
    unfold renderTail
    dsimp only
    rw [List.getElem?_eq_getElem hidx1]
    dsimp only
    refine ⟨rfl, _, rfl, ?_⟩
    unfold save_current_edits
    rw [List.getElem?_eq_getElem hidx1]
    rw [List.getElem?_set_ne (by omega), List.getElem?_set_self hidx]

/-- Witness for claim C7 on concrete sessions: previous is a no-op at index
0, next is a no-op at the last index, and next advances the index by one. -/
theorem C7_navigation_witness :
    step .clickPrev stateAB = stateAB ∧
      step .clickNext stateA = stateA ∧
      (step .clickNext stateAB).current_idx = stateAB.current_idx + 1 := by
  refine ⟨?_, ?_, ?_⟩
  · exact C7_navigation.1 stateAB [entryA, entryB] entryA (by decide)
      (by decide) (by decide)
  · exact C7_navigation.2.1 stateA [entryA] entryA (by decide)
      (by decide) (by decide)
  · exact (C7_navigation.2.2.1 stateAB [entryA, entryB] entryA (by decide)
      (by decide) (by decide)).1

/-- Looking up the key just handled by `insertIfAbsent` yields the previous
binding if there was one and the inserted value otherwise. -/
theorem lookup_insertIfAbsent_self [BEq α] [LawfulBEq α] (k : α) (v : β)
    (l : List (α × β)) :
    (insertIfAbsent k v l).lookup k = some ((l.lookup k).getD v) := by
  unfold insertIfAbsent
  cases h : l.lookup k with
  | some w => simp [h]
  | none => simp [h, List.lookup_append]

/-- `insertIfAbsent` does not affect lookups of other keys. -/
theorem lookup_insertIfAbsent_ne [BEq α] [LawfulBEq α] (k k2 : α) (v : β)
    (l : List (α × β)) (h : k2 ≠ k) :
    (insertIfAbsent k v l).lookup k2 = l.lookup k2 := by
  unfold insertIfAbsent
  cases hl : l.lookup k with
  | some w => rfl
  | none =>
    have hbeq : (k2 == k) = false := beq_eq_false_iff_ne.mpr h
    simp [List.lookup_append, List.lookup_cons, hbeq]

/-- Folding `insertIfAbsent` over pairs none of whose keys is `k` does not
affect the lookup of `k`. -/
theorem lookup_foldPii_of_forall_ne (idx : Nat) (f : String × PiiInfo → String)
    (piis : List (String × PiiInfo)) (k : String)
    (acc : List ((Nat × String) × String))
    (hk : ∀ kv ∈ piis, kv.1 ≠ k) :
    (piis.foldl (fun a kv => insertIfAbsent (idx, kv.1) (f kv) a) acc).lookup
      (idx, k) = acc.lookup (idx, k) := by
  induction piis generalizing acc with
  | nil => rfl
  | cons hd tl ih =>
    rw [List.foldl_cons]
    rw [ih _ fun kv hkv => hk kv (List.mem_cons_of_mem _ hkv)]
    have hkh : k ≠ hd.1 := fun hkk => hk hd (List.mem_cons_self _ _) hkk.symm
    exact lookup_insertIfAbsent_ne _ _ _ _ (by simp [hkh])

/-- Folding `insertIfAbsent` over a duplicate-free pair list binds each key
to its value, unless the accumulator already binds it. -/
theorem lookup_foldPii_mem (idx : Nat) (f : String × PiiInfo → String)
    (piis : List (String × PiiInfo)) (k : String) (info : PiiInfo)
    (acc : List ((Nat × String) × String))
    (hmem : (k, info) ∈ piis) (hnd : (piis.map Prod.fst).Nodup) :
    (piis.foldl (fun a kv => insertIfAbsent (idx, kv.1) (f kv) a) acc).lookup
      (idx, k) = some ((acc.lookup (idx, k)).getD (f (k, info))) := by
  induction piis generalizing acc with
  | nil => cases hmem
  | cons hd tl ih =>
    rcases List.mem_cons.mp hmem with heq | hmemtl
    · cases heq
      rw [List.foldl_cons]
      have hkeys : ∀ kv ∈ tl, kv.1 ≠ k := by
        intro kv hkv hkk
        have : k ∉ tl.map Prod.fst := (List.nodup_cons.mp (by simpa using hnd)).1
        exact this (List.mem_map.mpr ⟨kv, hkv, hkk⟩)
      rw [lookup_foldPii_of_forall_ne idx f tl k _ hkeys]
      exact lookup_insertIfAbsent_self _ _ _
    · have hne : hd.1 ≠ k := by
        intro hkk
        have : hd.1 ∉ tl.map Prod.fst := (List.nodup_cons.mp (by simpa using hnd)).1
        exact this (List.mem_map.mpr ⟨(k, info), hmemtl, hkk.symm⟩)
      rw [List.foldl_cons]
      rw [ih _ hmemtl (by simpa using (List.nodup_cons.mp (by simpa using hnd)).2)]
      have hkh : k ≠ hd.1 := fun h2 => hne h2.symm
      rw [lookup_insertIfAbsent_ne _ _ _ _ (by simp [hkh])]

/-- The initialisation pass leaves the question widget list as an
insert-if-absent. -/
theorem initKeys_questionEdits (tr : Transient) (idx : Nat) (e : Entry) :
    (initKeys tr idx e).questionEdits =
      insertIfAbsent idx e.question tr.questionEdits := rfl

/-- The initialisation pass folds the per-PII type keys in PII order. -/
theorem initKeys_typeEdits (tr : Transient) (idx : Nat) (e : Entry) :
    (initKeys tr idx e).typeEdits =
      e.piis.foldl (fun acc kv => insertIfAbsent (idx, kv.1) kv.2.type acc)
        tr.typeEdits := rfl

/-- The initialisation pass folds the per-PII relevance keys in PII order. -/
theorem initKeys_relEdits (tr : Transient) (idx : Nat) (e : Entry) :
    (initKeys tr idx e).relEdits =
      e.piis.foldl
        (fun acc kv => insertIfAbsent (idx, kv.1) kv.2.relevance acc)
        tr.relEdits := rfl

/-- Setting a position of a list to the value it already holds is the
identity. -/
theorem set_eq_self_of_getElem (l : List α) (i : Nat) (a : α)
    (h : l[i]? = some a) : l.set i a = l := by
  induction l generalizing i with
  | nil => simp at h
  | cons x t ih =>
    cases i with
    | zero =>
      simp only [List.getElem?_cons_zero, Option.some.injEq] at h
      simp [h]
    | succ n =>
      simp only [List.getElem?_cons_succ] at h
      simp [ih n h]

/-- Reconciling a record against widget keys freshly initialised from that
record (an empty transient state followed by one render-pass initialisation)
is the identity, provided the record has no duplicate PII keys (a Python dict
never has). -/
theorem saveEntry_initKeys_empty (idx : Nat) (e : Entry)
    (hnd : (e.piis.map Prod.fst).Nodup) :
    saveEntry (initKeys Transient.empty idx e) idx e = e := by
  have hc : (initKeys Transient.empty idx e).contextEdits.lookup idx =
      some e.context := by
    rw [initKeys_contextEdits, lookup_insertIfAbsent_self]
    simp [Transient.empty]
  have hq : (initKeys Transient.empty idx e).questionEdits.lookup idx =
      some e.question := by
    rw [initKeys_questionEdits, lookup_insertIfAbsent_self]
    simp [Transient.empty]
  have hpii : savePiis (initKeys Transient.empty idx e) idx e.piis = e.piis := by
    unfold savePiis
    have hmap : ∀ kv ∈ e.piis,
        (kv.1,
          (⟨((initKeys Transient.empty idx e).typeEdits.lookup
              (idx, kv.1)).getD kv.2.type,
            ((initKeys Transient.empty idx e).relEdits.lookup
              (idx, kv.1)).getD kv.2.relevance⟩ : PiiInfo)) = kv := by
      intro kv hkv
      have ht : (initKeys Transient.empty idx e).typeEdits.lookup
          (idx, kv.1) = some kv.2.type := by
        rw [initKeys_typeEdits]
        rw [lookup_foldPii_mem idx (fun kv => kv.2.type) e.piis kv.1 kv.2 _
          hkv hnd]
        simp [Transient.empty]
      have hrl : (initKeys Transient.empty idx e).relEdits.lookup
          (idx, kv.1) = some kv.2.relevance := by
        rw [initKeys_relEdits]
        rw [lookup_foldPii_mem idx (fun kv => kv.2.relevance) e.piis kv.1 kv.2 _
          hkv hnd]
        simp [Transient.empty]
      rw [ht, hrl]
      rfl
    calc e.piis.map _ = e.piis.map id := List.map_congr_left hmap
    _ = e.piis := List.map_id _
  unfold saveEntry
  rw [hc, hq, hpii]
  rfl

/-- Claim C8: the Load Original action restores the session exactly: from any
state holding a pristine list, after the event every record read from the
working list equals the record as originally parsed, the pristine list is
replaced by (a deep copy of) the same pristine data, the active index is
reset to 0, and all transient per-field widget state is discarded (only the
freshly re-initialised keys of record 0 remain, bound to pristine values). -/
theorem C8_load_original_restores (s : AppState) (es orig : List Entry)
    (e : Entry)
    (hes : s.entries = some es) (horig : s.original_entries = some orig)
    (he : es[s.current_idx]? = some e)
    (hnd : ∀ o ∈ orig, (o.piis.map Prod.fst).Nodup) :
    (∀ i : Nat, ((step .clickLoadOriginal s).entries.getD [])[i]? = orig[i]?) ∧
      (step .clickLoadOriginal s).original_entries = some orig ∧
      (step .clickLoadOriginal s).current_idx = 0 ∧
      ∀ i, i ≠ 0 →
        (step .clickLoadOriginal s).tr.contextEdits.lookup i = none ∧
        (step .clickLoadOriginal s).tr.questionEdits.lookup i = none := by
  unfold step
  rw [hes]
  dsimp only
  rw [he]
  dsimp only
  rw [horig]
  dsimp only
  unfold renderTail
  dsimp only
  cases ho0 : orig[0]? with
  | none =>
    dsimp only
    exact ⟨fun i => rfl, rfl, rfl, fun i hi => ⟨rfl, rfl⟩⟩
  | some o0 =>
    dsimp only
    have ho0mem : o0 ∈ orig := by
      have h0 : 0 < orig.length := by
        by_contra hlt
        rw [List.getElem?_eq_none (Nat.le_of_not_lt hlt)] at ho0
        exact Option.noConfusion ho0
      have := List.getElem?_eq_getElem h0
      rw [this] at ho0
      exact (Option.some.inj ho0) ▸ List.getElem_mem h0
  
    have hsave : save_current_edits (initKeys Transient.empty 0 o0) 0 orig =
        orig := by
      unfold save_current_edits
      rw [ho0]
      dsimp only
      rw [saveEntry_initKeys_empty 0 o0 (hnd o0 ho0mem)]
      exact set_eq_self_of_getElem orig 0 o0 ho0
    have hbeq : ∀ i : Nat, i ≠ 0 → (i == 0) = false :=
      fun i hi => beq_eq_false_iff_ne.mpr hi
    refine ⟨fun i => by rw [hsave]; rfl, rfl, rfl, fun i hi => ⟨?_, ?_⟩⟩
    · rw [initKeys_contextEdits]
      simp [insertIfAbsent, Transient.empty, List.lookup, hbeq i hi]
    · rw [initKeys_questionEdits]
      simp [insertIfAbsent, Transient.empty, List.lookup, hbeq i hi]

/-- Witness for claim C8: resetting an edited two-record session restores
both records and the index. -/
theorem C8_load_original_restores_witness :
    (∀ i : Nat, ((step .clickLoadOriginal
        (step (.editContext "zz") stateAB)).entries.getD [])[i]? =
      [entryA, entryB][i]?) ∧
      (step .clickLoadOriginal
        (step (.editContext "zz") stateAB)).original_entries =
        some [entryA, entryB] ∧
      (step .clickLoadOriginal
        (step (.editContext "zz") stateAB)).current_idx = 0 := by
  have h := C8_load_original_restores
    (step (.editContext "zz") stateAB) [⟨none, "zz", "qa", []⟩, entryB]
    [entryA, entryB] ⟨none, "zz", "qa", []⟩
    (by decide) (by decide) (by decide) (by decide)
  exact ⟨h.1, h.2.1, h.2.2.1⟩

/-- Witness for claim C2 at a concrete record and annotation. -/
theorem C2_refresh_prunes_exactly_witness :
    (("b", (⟨"name", "high"⟩ : PiiInfo)) ∈
        (refresh_pii_from_context entryW).piis ↔
      ("b", (⟨"name", "high"⟩ : PiiInfo)) ∈ entryW.piis ∧
        ("b" : String).data <:+: entryW.context.data) ∧
      (refresh_pii_from_context entryW).context = entryW.context :=
  ⟨(C2_refresh_prunes_exactly entryW).1 _,
    (C2_refresh_prunes_exactly entryW).2.1⟩

/-- Witness for claim C6 at a concrete record. -/
theorem C6_refresh_idempotent_witness :
    refresh_pii_from_context (refresh_pii_from_context entryW) =
      refresh_pii_from_context entryW :=
  C6_refresh_idempotent entryW
